import Mathlib

/-!
Verification of the hybrid relational/vector index manager in
`semantic_sql.py` (class `semantic_sql_db`).  The orchestration logic —
`insert`, `insert_text_in_chunks`, `chunk_text_for_insert`, `get`,
`hybrid_query` — is embedded from the source line by line.  The two store
adapters (`local_sql_db`, `local_semantic_db`) and the sentence splitter
live outside this repository; where their behaviour decides a property they
are modelled from the spec's adapter contracts (sections 4.2, 4.3, 6), and
each such definition says so in its doc comment.
-/

namespace SemanticSql

/-- Values a column can hold: strings, integers, SQL NULL (Python `None`),
and `srv c`, the server-computed value a row receives for a column `c` it
did not supply (a declared DEFAULT, or NULL when none is declared). -/
inductive Val where
  | str : String → Val
  | int : Int → Val
  | null : Val
  | srv : String → Val
deriving DecidableEq, Repr

/-- Column names. -/
abbrev Field := String

/-- A Python dict from column name to value, as an association list in key
insertion order (Python dicts preserve insertion order; keys are unique). -/
abbrev Row := List (Field × Val)

/-- Lookup `k in d` / `d[k]`: the value at the first occurrence of `k`. -/
def Row.find (d : Row) (k : Field) : Option Val :=
  match d with
  | [] => none
  | (k', v) :: rest => if k' = k then some v else Row.find rest k

/-- Assignment `d[k] = v`: replaces the value in place when `k` is present
(Python keeps the key's position), else appends the new key at the end. -/
def Row.set (d : Row) (k : Field) (v : Val) : Row :=
  match d with
  | [] => [(k, v)]
  | (k', v') :: rest => if k' = k then (k', v) :: rest else (k', v') :: Row.set rest k v

/-- Deletion `del d[k]` (total here; the embedding only applies it to rows
that hold `k`, matching where the source can reach the `del`). -/
def Row.erase (d : Row) (k : Field) : Row :=
  match d with
  | [] => []
  | (k', v') :: rest => if k' = k then rest else (k', v') :: Row.erase rest k

/-- The dict's key list, in insertion order. -/
def Row.keys (d : Row) : List Field := d.map Prod.fst

/-- A table schema as the source holds it: a dict from column name to its
type/constraint declaration string. -/
abbrev Schema := List (Field × String)

/-- Declared column names of a schema. -/
def Schema.keys (schema : Schema) : List Field := schema.map Prod.fst

/-- Set equality of two key collections, as Python's `dict_keys.__eq__`
compares them (order-insensitive). -/
def keysEqSet (a b : List Field) : Bool :=
  a.all (fun k => b.contains k) && b.all (fun k => a.contains k)

/-- Strict subset on key collections, used to state the spec's re-read
condition. -/
def strictSubset (a b : List Field) : Bool :=
  a.all (fun k => b.contains k) && !(b.all (fun k => a.contains k))

/-- Errors the embedded operations can surface.  `validationError` is the
`ValueError` raised by the source's `check_validity` pre-flight (the spec's
`ValidationError`); `keyError` and `indexError` are Python's `KeyError` and
`IndexError`; `schemaError` and `constraintError` are the relational
adapter's failures per the spec's taxonomy; `sqlBindError` is the engine
rejecting a malformed parameterised query. -/
inductive Err where
  | validationError
  | keyError
  | indexError
  | schemaError
  | constraintError
  | sqlBindError
deriving DecidableEq, Repr

/-- One `batch_insert` call handed to the vector store adapter: the stored
texts, their metadata rows, and the external identities (the spec's vector
store boundary: `(text, metadata-mapping, identity)` triples). -/
structure BatchInsert where
  texts : List Val
  metadatas : List Row
  text_ids : Option (List Val)
deriving DecidableEq, Repr

/-- The bound state of a `semantic_sql_db` instance: the binding fields set
by `set_table`, the relational table's stored rows, and the trace of
`batch_insert` calls made to the vector store. -/
structure DbState where
  table_name : String
  table_sql_schema : Schema
  unique_id_field : Field
  semantic_search_field : Field
  sqlTable : List Row
  vecInserts : List BatchInsert
deriving DecidableEq, Repr

/-- Binding invariant established by `set_table` (semantic_sql.py lines
60-63): the schema contains both the semantic search field and the unique
id field. -/
def wellBound (s : DbState) : Prop :=
  (Schema.keys s.table_sql_schema).contains s.unique_id_field = true ∧
  (Schema.keys s.table_sql_schema).contains s.semantic_search_field = true

instance (s : DbState) : Decidable (wellBound s) := by
  unfold wellBound; infer_instance

/-- Modelled from the spec: the relational store completes each inserted row
to the full declared schema, so that a later SELECT * returns every column
in schema order — columns the row did not supply hold the server-computed
value (`Val.srv`), covering declared DEFAULTs and plain NULL alike. -/
def completeRow (schema : Schema) (d : Row) : Row :=
  schema.map (fun c => (c.1, (Row.find d c.1).getD (Val.srv c.1)))

/-- Identity column values of a list of stored or supplied rows, in order
(`Val.null` for a row without the column, as SQL reads an absent value). -/
def tableIds (uid : Field) (rows : List Row) : List Val :=
  rows.map (fun d => (Row.find d uid).getD Val.null)

/-- Duplicate test on a value list. -/
def hasDup : List Val → Bool
  | [] => false
  | v :: vs => vs.contains v || hasDup vs

/-- Every row's keys lie in the schema. -/
def rowsFitSchema (schema : Schema) (data : List Row) : Bool :=
  data.all (fun d => (Row.keys d).all (fun k => (Schema.keys schema).contains k))

/-- Modelled from the spec: `insert_rows` of the relational adapter (spec
section 4.2) bulk-inserts the rows.  It errors when a row names a column the
schema does not declare (the engine has no such column), and fails with the
spec's `ConstraintError` on an identity collision — against rows already in
the table or within the batch (the identity column is the table's unique
key).  On success the table holds the old rows followed by the completed new
rows. -/
def insert_data (schema : Schema) (uid : Field) (table : List Row)
    (data : List Row) : Except Err (List Row) :=
  if !(rowsFitSchema schema data) then Except.error Err.schemaError
  else
    let newRows := data.map (completeRow schema)
    let ids := tableIds uid newRows
    if ids.any (fun v => (tableIds uid table).contains v) || hasDup ids then
      Except.error Err.constraintError
    else Except.ok (table ++ newRows)

/-- Row predicate of `insert`'s `check_validity` loop (lines 151-153):
`all(key in self.table_sql_schema for key in d)`. -/
def validRow (schema : Schema) (d : Row) : Bool :=
  (Row.keys d).all (fun k => (Schema.keys schema).contains k)

/-- Condition of line 158: `self.unique_id_field not in entry.keys() or
entry[self.unique_id_field] is None`. -/
def missingId (uid : Field) (d : Row) : Bool :=
  !((Row.keys d).contains uid) || (Row.find d uid == some Val.null)

/-- Lines 159-162 as they run on every row when some row lacks an identity:
`d[self.unique_id_field] = str(uuid.uuid4())`, with `gen i` the i-th value
the uuid stream produces. -/
def assignFrom (uid : Field) (gen : Nat → String) : Nat → List Row → List Row
  | _, [] => []
  | i, d :: rest => Row.set d uid (Val.str (gen i)) :: assignFrom uid gen (i + 1) rest

/-- The identities collected by that same loop, in input order. -/
def genIds (gen : Nat → String) : Nat → Nat → List Val
  | _, 0 => []
  | i, n + 1 => Val.str (gen i) :: genIds gen (i + 1) n

/-- Lines 164-166: `unique_ids.append(d[self.unique_id_field])`; the Python
subscript raises `KeyError` on a row without the column. -/
def collectIds (uid : Field) : List Row → Except Err (List Val)
  | [] => Except.ok []
  | d :: rest =>
    match Row.find d uid with
    | some v => Except.map (fun vs => v :: vs) (collectIds uid rest)
    | none => Except.error Err.keyError

/-- Lines 156-166 of `insert`: when any row lacks the identity field or has
it null, every row is assigned a freshly generated identity (mutating the
caller's dicts); otherwise the supplied identities are collected.  Returns
the rows as the caller's dicts now stand, with the `unique_ids` list. -/
def insertPhaseIds (uid : Field) (gen : Nat → String) (data : List Row) :
    Except Err (List Row × List Val) :=
  if data.any (missingId uid) then
    Except.ok (assignFrom uid gen 0 data, genIds gen 0 data.length)
  else
    Except.map (fun ids => (data, ids)) (collectIds uid data)

/-- Lines 170-174, the local `fields_were_generated`: compares the schema's
key set with `data[0].keys()` (Python dict-view equality is set equality);
`data[0]` raises `IndexError` on an empty list. -/
def fields_were_generated (schema : Schema) (data : List Row) : Except Err Bool :=
  match data with
  | [] => Except.error Err.indexError
  | d :: _ => Except.ok (!(keysEqSet (Schema.keys schema) (Row.keys d)))

/-- Lines 176-183: `SELECT * FROM table WHERE uid IN ids`.  Modelled from
the spec's relational boundary: the stored rows whose identity value lies in
`ids`, in table order. -/
def rereadRows (uid : Field) (table : List Row) (ids : List Val) : List Row :=
  table.filter (fun d => ids.contains ((Row.find d uid).getD Val.null))

/-- What the loop of lines 185-202 accumulates: the vector texts, their
metadata rows, the collected text identities, and the (unused) copied rows
the source appends to `insert_to_sql`. -/
structure VecPrep where
  texts : List Val
  metadatas : List Row
  text_ids : List Val
  insert_to_sql : List Row
deriving DecidableEq, Repr

/-- Lines 185-202 of `insert`, one row at a time: copy the row, give the
copy a fresh identity when it lacks one (`gen k` onward feeds that branch),
read the semantic field (`d[self.semantic_search_field]`, a `KeyError` when
absent), delete the semantic field from a second copy to form the metadata,
and append `d[self.unique_id_field]` to the text identities — the source
wraps that read in `try/except: pass`, so a row without the column is
silently skipped. -/
def vecPrep (uid sem : Field) (gen : Nat → String) (k : Nat) :
    List Row → Except Err VecPrep
  | [] => Except.ok ⟨[], [], [], []⟩
  | d :: rest =>
    let d_copy := if missingId uid d then Row.set d uid (Val.str (gen k)) else d
    match Row.find d sem with
    | none => Except.error Err.keyError
    | some sv =>
      let d_copy2 := Row.erase d_copy sem
      match vecPrep uid sem gen (k + 1) rest with
      | Except.error e => Except.error e
      | Except.ok vp =>
        let tids := match Row.find d uid with
          | some v => v :: vp.text_ids
          | none => vp.text_ids
        Except.ok ⟨sv :: vp.texts, d_copy2 :: vp.metadatas, tids,
          d_copy :: vp.insert_to_sql⟩

/-- The outcome of a successful `insert` call: the state after both store
writes, the returned `unique_ids`, the caller's row dicts as the call left
them (the source mutates them in place), the local `data` after the optional
re-read (the rows the vector write was built from), and the value the local
`fields_were_generated()` returned. -/
structure InsertOk where
  state : DbState
  unique_ids : List Val
  callerRows : List Row
  finalData : List Row
  fields_generated : Bool
deriving DecidableEq, Repr

/-- The `insert` method, lines 129-209.  An error carries the state at the
moment the exception is raised (the writes already performed stand, as in
the source).  `gen` is the stream of values `str(uuid.uuid4())` yields, in
call order. -/
def insert (s : DbState) (data : List Row) (check_validity : Bool)
    (gen : Nat → String) : Except (Err × DbState) InsertOk :=
  if check_validity && data.any (fun d => !(validRow s.table_sql_schema d)) then
    Except.error (Err.validationError, s)
  else
    match insertPhaseIds s.unique_id_field gen data with
    | Except.error e => Except.error (e, s)
    | Except.ok (rows, unique_ids) =>
      match insert_data s.table_sql_schema s.unique_id_field s.sqlTable rows with
      | Except.error e => Except.error (e, s)
      | Except.ok newTable =>
        match fields_were_generated s.table_sql_schema rows with
        | Except.error e => Except.error (e, { s with sqlTable := newTable })
        | Except.ok regen =>
          match vecPrep s.unique_id_field s.semantic_search_field gen data.length
              (if regen then rereadRows s.unique_id_field newTable unique_ids
               else rows) with
          | Except.error e => Except.error (e, { s with sqlTable := newTable })
          | Except.ok vp =>
            Except.ok
              ⟨{ { s with sqlTable := newTable } with
                  vecInserts := s.vecInserts ++
                    [⟨vp.texts, vp.metadatas,
                      if vp.text_ids.isEmpty then none else some vp.text_ids⟩] },
                unique_ids, rows,
                (if regen then rereadRows s.unique_id_field newTable unique_ids
                 else rows),
                regen⟩

/-- The `chunk_text_for_insert` method, lines 77-123: one row per chunk, a
literal copy of `metadata` (`eval(repr(metadata))`) with the semantic search
field set to the chunk's text.  The external `text_splitter` is passed in as
`split` (the spec's Chunker, section 4.1). -/
def chunk_text_for_insert (sem : Field) (split : String → Nat → List String)
    (text : String) (metadata : Row) (maxSentences : Nat) : List Row :=
  (split text maxSentences).map (fun c => Row.set metadata sem (Val.str c))

/-- The `insert_text_in_chunks` method, lines 213-215: chunk, then delegate
to `insert`. -/
def insert_text_in_chunks (s : DbState) (split : String → Nat → List String)
    (text : String) (metadata : Row) (maxSentences : Nat)
    (check_validity : Bool) (gen : Nat → String) :
    Except (Err × DbState) InsertOk :=
  insert s
    (chunk_text_for_insert s.semantic_search_field split text metadata maxSentences)
    check_validity gen

/-- Argument of `get`: a scalar identity, or a Python list/tuple of them
(line 230 dispatches on `type(unique_id) in [list, tuple]`). -/
inductive GetArg where
  | scalar : Val → GetArg
  | many : List Val → GetArg
deriving DecidableEq, Repr

/-- The query text and bind parameters `get` hands the relational adapter,
exactly as lines 231 and 233 build them: `... WHERE uid = ?` with the one
identity, or `... WHERE uid in ?` with `tuple(unique_id)` as parameters. -/
def get_sql (s : DbState) (arg : GetArg) : String × List Val :=
  match arg with
  | GetArg.scalar v =>
    ("SELECT * FROM " ++ s.table_name ++ " WHERE " ++ s.unique_id_field ++ " = ?", [v])
  | GetArg.many vs =>
    ("SELECT * FROM " ++ s.table_name ++ " WHERE " ++ s.unique_id_field ++ " in ?", vs)

/-- Count of `?` placeholders in a query string. -/
def countPlaceholders (q : String) : Nat := q.toList.count '?'

/-- The `get` method, lines 218-233.  The scalar path runs the parameterised
equality lookup; modelled from the spec's relational boundary, it returns
the stored rows whose identity column equals the argument (an empty list
when none matches).  The list/tuple path hands the engine the text
`... WHERE uid in ?` with one bind parameter per identity: the engine
rejects it (`sqlBindError`) — a bare placeholder is not a valid right-hand
side for IN, and a single placeholder cannot bind a whole collection;
`C8_list_get_fails` exhibits the placeholder/parameter mismatch on the text
`get_sql` actually builds. -/
def get (s : DbState) (arg : GetArg) : Except Err (List Row) :=
  match arg with
  | GetArg.scalar v =>
    Except.ok (s.sqlTable.filter
      (fun d => (Row.find d s.unique_id_field).getD Val.null == v))
  | GetArg.many _ => Except.error Err.sqlBindError

/-- Identity values admitted by the relational predicate: lines 252-256 run
`SELECT uid FROM table WHERE sql_where` and collect the first column.  The
free-form `sql_where` fragment is modelled from the spec's relational
boundary as the row predicate it denotes. -/
def admissible_ids (s : DbState) (pred : Row → Bool) : List Val :=
  tableIds s.unique_id_field (s.sqlTable.filter pred)

/-- The vector-store query `hybrid_query` issues (spec section 4.3): the
query text, `top_k`, and the `$in` identity list of the metadata filter. -/
structure VecQueryCall where
  query_text : String
  top_k : Nat
  whereIn : List Val
deriving DecidableEq, Repr

/-- The `hybrid_query` method, lines 237-264, up to the vector store call it
issues: `none` would model returning without querying the vector store; the
source has no such path — it unconditionally calls `self.semantic_db.query`
with the `$in` filter over the admissible identity list (lines 258-262), and
its return value is the adapter's response to exactly this call. -/
def hybrid_query (s : DbState) (query_text : String) (top_k : Nat)
    (pred : Row → Bool) : Option VecQueryCall :=
  some ⟨query_text, top_k, admissible_ids s pred⟩

/-! Concrete fixtures used by the witnesses and counterexamples: the example
binding of the source's `__main__` block, shrunk to three columns. -/

/-- Schema of the example table: identity, semantic text, one plain tag. -/
def exSchema : Schema :=
  [("id", "TEXT PRIMARY KEY"), ("text", "TEXT NOT NULL"), ("tag", "TEXT")]

/-- A freshly bound index over `exSchema`, both stores empty. -/
def exState : DbState :=
  { table_name := "documents", table_sql_schema := exSchema,
    unique_id_field := "id", semantic_search_field := "text",
    sqlTable := [], vecInserts := [] }

/-- A concrete uuid stream for evaluating the embedding. -/
def exGen : Nat → String := fun n => "uuid-" ++ toString n

/-! Lemmas about the row dictionary operations. -/

theorem find_set_self (d : Row) (k : Field) (v : Val) :
    Row.find (Row.set d k v) k = some v := by
  induction d with
  | nil => simp [Row.set, Row.find]
  | cons p rest ih =>
    obtain ⟨k', v'⟩ := p
    by_cases h : k' = k
    · simp [Row.set, Row.find, h]
    · simp [Row.set, Row.find, h, ih]

theorem find_set_ne (d : Row) (k k' : Field) (v : Val) (h : k' ≠ k) :
    Row.find (Row.set d k v) k' = Row.find d k' := by
  have h2 : k ≠ k' := Ne.symm h
  induction d with
  | nil => simp [Row.set, Row.find, h2]
  | cons p rest ih =>
    obtain ⟨k0, v0⟩ := p
    by_cases h0 : k0 = k
    · subst h0
      simp [Row.set, Row.find, h2]
    · by_cases h1 : k0 = k'
      · simp [Row.set, if_neg h0, Row.find, h1, h]
      · simp [Row.set, if_neg h0, Row.find, h1, ih]

theorem find_erase_ne (d : Row) (k k' : Field) (h : k' ≠ k) :
    Row.find (Row.erase d k) k' = Row.find d k' := by
  have h2 : k ≠ k' := Ne.symm h
  induction d with
  | nil => simp [Row.erase, Row.find]
  | cons p rest ih =>
    obtain ⟨k0, v0⟩ := p
    by_cases h0 : k0 = k
    · subst h0
      simp [Row.erase, Row.find, h2]
    · by_cases h1 : k0 = k'
      · simp [Row.erase, if_neg h0, Row.find, h1, h]
      · simp [Row.erase, if_neg h0, Row.find, h1, ih]

theorem keys_contains_iff (d : Row) (k : Field) :
    (Row.keys d).contains k = true ↔ ∃ v, Row.find d k = some v := by
  induction d with
  | nil => simp [Row.keys, Row.find]
  | cons p rest ih =>
    obtain ⟨k0, v0⟩ := p
    by_cases h0 : k0 = k
    · subst h0; simp [Row.keys, Row.find]
    · simp only [Row.keys, List.map_cons] at ih ⊢
      simp only [Row.find, if_neg h0]
      simp only [List.contains_cons]  -- may need adjusting
      constructor
      · intro hh
        rcases Bool.or_eq_true_iff.mp hh with hh | hh
        · exact absurd (beq_iff_eq.mp hh).symm h0
        · exact ih.mp hh
      · intro hv
        exact Bool.or_eq_true_iff.mpr (Or.inr (ih.mpr hv))

theorem find_mem_keys (d : Row) (k : Field) (v : Val)
    (h : Row.find d k = some v) : (Row.keys d).contains k = true :=
  (keys_contains_iff d k).mpr ⟨v, h⟩

theorem missingId_set_self (d : Row) (uid : Field) (x : String) :
    missingId uid (Row.set d uid (Val.str x)) = false := by
  have hc : (Row.keys (Row.set d uid (Val.str x))).contains uid = true :=
    (keys_contains_iff _ _).mpr ⟨Val.str x, find_set_self d uid (Val.str x)⟩
  unfold missingId
  rw [hc, find_set_self]
  rfl

theorem missingId_false_iff (uid : Field) (d : Row) :
    missingId uid d = false ↔ ∃ v, Row.find d uid = some v ∧ v ≠ Val.null := by
  simp only [missingId, Bool.or_eq_false_iff]
  constructor
  · rintro ⟨h1, h2⟩
    have h1' : (Row.keys d).contains uid = true := by
      cases hc : (Row.keys d).contains uid with
      | true => rfl
      | false => rw [hc] at h1; simp at h1
    obtain ⟨v, hv⟩ := (keys_contains_iff d uid).1 h1'
    refine ⟨v, hv, ?_⟩
    intro hn
    subst hn
    rw [hv] at h2
    simp at h2
  · rintro ⟨v, hv, hn⟩
    constructor
    · rw [find_mem_keys d uid v hv]; rfl
    · rw [hv]; simpa using hn

/-! Lemmas about schema completion. -/

theorem keys_completeRow (schema : Schema) (d : Row) :
    Row.keys (completeRow schema d) = Schema.keys schema := by
  simp [completeRow, Row.keys, Schema.keys, List.map_map, Function.comp]

theorem completeRow_find (schema : Schema) (d : Row) (k : Field)
    (hk : (Schema.keys schema).contains k = true) :
    Row.find (completeRow schema d) k = some ((Row.find d k).getD (Val.srv k)) := by
  induction schema with
  | nil => simp [Schema.keys] at hk
  | cons c rest ih =>
    by_cases h0 : c.1 = k
    · simp [completeRow, Row.find, h0]
    · simp only [Schema.keys, List.map_cons, List.contains_cons, Bool.or_eq_true,
        beq_iff_eq] at hk
      rcases hk with hk | hk
      · exact absurd hk.symm h0
      · simpa [completeRow, Row.find, h0] using ih hk

theorem missingId_completeRow (schema : Schema) (uid : Field) (d : Row)
    (hs : (Schema.keys schema).contains uid = true)
    (hd : missingId uid d = false) :
    missingId uid (completeRow schema d) = false := by
  obtain ⟨v, hv, hn⟩ := (missingId_false_iff uid d).1 hd
  apply (missingId_false_iff _ _).2
  refine ⟨v, ?_, hn⟩
  rw [completeRow_find schema d uid hs, hv]
  rfl

theorem tableIds_map_completeRow (schema : Schema) (uid : Field)
    (rows : List Row)
    (hs : (Schema.keys schema).contains uid = true)
    (hall : ∀ d ∈ rows, missingId uid d = false) :
    tableIds uid (rows.map (completeRow schema)) = tableIds uid rows := by
  induction rows with
  | nil => rfl
  | cons d rest ih =>
    obtain ⟨v, hv, hn⟩ := (missingId_false_iff uid d).1 (hall d (by simp))
    have h1 : Row.find (completeRow schema d) uid = some v := by
      rw [completeRow_find schema d uid hs, hv]; rfl
    have h2 := ih (fun x hx => hall x (List.mem_cons_of_mem _ hx))
    simp only [tableIds, List.map_cons, List.cons.injEq] at h2 ⊢
    exact ⟨by rw [h1, hv], h2⟩

/-! Lemmas about the identity-assignment phase. -/

theorem assignFrom_length (uid : Field) (gen : Nat → String) (i : Nat)
    (l : List Row) : (assignFrom uid gen i l).length = l.length := by
  induction l generalizing i with
  | nil => rfl
  | cons d rest ih => simp [assignFrom, ih]

theorem genIds_length (gen : Nat → String) (i n : Nat) :
    (genIds gen i n).length = n := by
  induction n generalizing i with
  | zero => rfl
  | succ n ih => simp [genIds, ih]

theorem tableIds_assignFrom (uid : Field) (gen : Nat → String) (i : Nat)
    (l : List Row) :
    tableIds uid (assignFrom uid gen i l) = genIds gen i l.length := by
  induction l generalizing i with
  | nil => rfl
  | cons d rest ih =>
    simp only [assignFrom, tableIds, List.map_cons, List.length_cons, genIds,
      List.cons.injEq]
    constructor
    · rw [find_set_self]; rfl
    · simpa [tableIds] using ih (i + 1)

theorem assignFrom_nonmissing (uid : Field) (gen : Nat → String) (i : Nat)
    (l : List Row) :
    ∀ d ∈ assignFrom uid gen i l, missingId uid d = false := by
  induction l generalizing i with
  | nil => intro d hd; simp [assignFrom] at hd
  | cons d0 rest ih =>
    intro d hd
    simp only [assignFrom, List.mem_cons] at hd
    rcases hd with hd | hd
    · subst hd; exact missingId_set_self _ _ _
    · exact ih (i + 1) d hd

theorem assignFrom_getD (uid : Field) (gen : Nat → String) (l : List Row)
    (i j : Nat) :
    (assignFrom uid gen i l).getD j [] =
      if j < l.length then Row.set (l.getD j []) uid (Val.str (gen (i + j)))
      else [] := by
  induction l generalizing i j with
  | nil => simp [assignFrom]
  | cons d rest ih =>
    cases j with
    | zero => simp [assignFrom]
    | succ j =>
      have harith : i + 1 + j = i + (j + 1) := by omega
      simp only [assignFrom, List.getD_cons_succ, ih (i + 1) j, harith,
        List.length_cons, Nat.succ_lt_succ_iff]

theorem collectIds_ok (uid : Field) (l : List Row) (ids : List Val)
    (h : collectIds uid l = Except.ok ids) :
    ids = tableIds uid l := by
  induction l generalizing ids with
  | nil =>
    simp only [collectIds, Except.ok.injEq] at h
    rw [← h]; rfl
  | cons d rest ih =>
    simp only [collectIds] at h
    cases hf : Row.find d uid with
    | none => rw [hf] at h; exact Except.noConfusion h
    | some v =>
      rw [hf] at h
      cases hr : collectIds uid rest with
      | error e => rw [hr] at h; exact Except.noConfusion h
      | ok vs =>
        rw [hr] at h
        simp only [Except.map, Except.ok.injEq] at h
        rw [← h]
        simp only [tableIds, List.map_cons, List.cons.injEq]
        constructor
        · rw [hf]; rfl
        · simpa [tableIds] using ih vs hr

theorem insertPhaseIds_ok (uid : Field) (gen : Nat → String)
    (data rows : List Row) (ids : List Val)
    (h : insertPhaseIds uid gen data = Except.ok (rows, ids)) :
    rows.length = data.length ∧
    (∀ d ∈ rows, missingId uid d = false) ∧
    ids = tableIds uid rows ∧
    (data.any (missingId uid) = true →
      rows = assignFrom uid gen 0 data ∧ ids = genIds gen 0 data.length) ∧
    (data.any (missingId uid) = false → rows = data) ∧
    (∀ i k, k ≠ uid → Row.find (rows.getD i []) k = Row.find (data.getD i []) k) := by
  unfold insertPhaseIds at h
  by_cases hm : data.any (missingId uid) = true
  · rw [if_pos hm] at h
    simp only [Except.ok.injEq, Prod.mk.injEq] at h
    obtain ⟨h1, h2⟩ := h
    subst h1; subst h2
    refine ⟨assignFrom_length uid gen 0 data, assignFrom_nonmissing uid gen 0 data,
      by rw [tableIds_assignFrom],
      fun _ => ⟨rfl, rfl⟩, fun hc => absurd hm (by simp [hc]), ?_⟩
    · intro i k hk
      rw [assignFrom_getD]
      by_cases hi : i < data.length
      · rw [if_pos hi, find_set_ne _ _ _ _ hk]
      · rw [if_neg hi]
        have : data.getD i [] = [] :=
          List.getD_eq_default _ _ (Nat.le_of_not_lt hi)
        rw [this]
  · have hm' : data.any (missingId uid) = false := by
      cases hc : data.any (missingId uid) with
      | true => exact absurd hc hm
      | false => rfl
    rw [if_neg hm] at h
    cases hc : collectIds uid data with
    | error e => rw [hc] at h; exact Except.noConfusion h
    | ok vs =>
      rw [hc] at h
      simp only [Except.map, Except.ok.injEq, Prod.mk.injEq] at h
      obtain ⟨h1, h2⟩ := h
      subst h1; subst h2
      refine ⟨rfl, ?_, collectIds_ok uid data vs hc,
        fun hcc => absurd hcc (by simp [hm']),
        fun _ => rfl, fun _ _ _ => rfl⟩
      · intro d hd
        have := List.any_eq_false.mp hm' d hd
        cases hmd : missingId uid d with
        | true => exact absurd hmd this
        | false => rfl

/-! Lemmas about the modelled relational bulk insert. -/

theorem insert_data_ok (schema : Schema) (uid : Field) (table data t : List Row)
    (h : insert_data schema uid table data = Except.ok t) :
    rowsFitSchema schema data = true ∧
    ((tableIds uid (data.map (completeRow schema))).any
      (fun v => (tableIds uid table).contains v)) = false ∧
    hasDup (tableIds uid (data.map (completeRow schema))) = false ∧
    t = table ++ data.map (completeRow schema) := by
  unfold insert_data at h
  cases hrf : rowsFitSchema schema data with
  | false => rw [hrf] at h; exact Except.noConfusion h
  | true =>
    rw [hrf] at h
    simp only [Bool.not_true, Bool.false_eq_true, if_false] at h
    cases hcol : ((tableIds uid (data.map (completeRow schema))).any
        (fun v => (tableIds uid table).contains v)) with
    | true =>
      rw [hcol] at h
      simp only [Bool.true_or, if_true] at h
      exact Except.noConfusion h
    | false =>
      rw [hcol] at h
      simp only [Bool.false_or] at h
      cases hdup : hasDup (tableIds uid (data.map (completeRow schema))) with
      | true =>
        rw [hdup] at h
        simp only [if_true] at h
        exact Except.noConfusion h
      | false =>
        rw [hdup] at h
        simp only [Bool.false_eq_true, if_false, Except.ok.injEq] at h
        exact ⟨rfl, rfl, rfl, h.symm⟩

/-! Lemmas about the re-read query. -/

theorem rereadRows_append_new (uid : Field) (old newRows : List Row)
    (ids : List Val)
    (hids : ids = tableIds uid newRows)
    (hold : (ids.any (fun v => (tableIds uid old).contains v)) = false) :
    rereadRows uid (old ++ newRows) ids = newRows := by
  unfold rereadRows
  rw [List.filter_append]
  have h1 : old.filter (fun d => ids.contains ((Row.find d uid).getD Val.null)) = [] := by
    rw [List.filter_eq_nil_iff]
    intro d hd hc
    have hmem : ((Row.find d uid).getD Val.null) ∈ ids := by simpa using hc
    have hmem2 : ((Row.find d uid).getD Val.null) ∈ tableIds uid old := by
      simp only [tableIds, List.mem_map]
      exact ⟨d, hd, rfl⟩
    have := List.any_eq_false.mp hold _ hmem
    apply this
    simpa using hmem2
  have h2 : newRows.filter (fun d => ids.contains ((Row.find d uid).getD Val.null)) = newRows := by
    rw [List.filter_eq_self]
    intro d hd
    subst hids
    simp only [tableIds]
    have : ((Row.find d uid).getD Val.null) ∈ (newRows.map (fun x => (Row.find x uid).getD Val.null)) :=
      List.mem_map.mpr ⟨d, hd, rfl⟩
    simpa [tableIds] using this
  rw [h1, h2, List.nil_append]

/-! Lemmas about the vector-payload loop. -/

theorem vecPrep_ok (uid sem : Field) (gen : Nat → String) (k : Nat)
    (rows : List Row) (vp : VecPrep)
    (hall : ∀ d ∈ rows, missingId uid d = false)
    (h : vecPrep uid sem gen k rows = Except.ok vp) :
    vp.texts = rows.map (fun d => (Row.find d sem).getD Val.null) ∧
    vp.metadatas = rows.map (fun d => Row.erase d sem) ∧
    vp.text_ids = tableIds uid rows := by
  induction rows generalizing k vp with
  | nil =>
    simp only [vecPrep, Except.ok.injEq] at h
    rw [← h]
    exact ⟨rfl, rfl, rfl⟩
  | cons d rest ih =>
    have hmiss : missingId uid d = false := hall d (by simp)
    obtain ⟨v, hv, hn⟩ := (missingId_false_iff uid d).1 hmiss
    simp only [vecPrep, hmiss, Bool.false_eq_true, if_false] at h
    cases hs : Row.find d sem with
    | none => rw [hs] at h; exact Except.noConfusion h
    | some sv =>
      rw [hs] at h
      cases hr : vecPrep uid sem gen (k + 1) rest with
      | error e => rw [hr] at h; exact Except.noConfusion h
      | ok vp0 =>
        rw [hr] at h
        rw [hv] at h
        simp only [Except.ok.injEq] at h
        obtain ⟨t1, t2, t3⟩ :=
          ih (k + 1) vp0 (fun x hx => hall x (List.mem_cons_of_mem _ hx)) hr
        rw [← h]
        refine ⟨?_, ?_, ?_⟩
        · simp only [List.map_cons, hs]
          exact congrArg _ t1
        · simp only [List.map_cons]
          exact congrArg _ t2
        · simp only [tableIds, List.map_cons, hv]
          simpa [tableIds] using congrArg (fun l => v :: l) t3

/-! Lemmas about the first-row key-set check. -/

theorem fields_were_generated_ok (schema : Schema) (rows : List Row) (b : Bool)
    (h : fields_were_generated schema rows = Except.ok b) :
    rows ≠ [] ∧
    b = !(keysEqSet (Schema.keys schema) (Row.keys rows.headI)) := by
  cases rows with
  | nil => exact Except.noConfusion h
  | cons d rest =>
    simp only [fields_were_generated, Except.ok.injEq] at h
    exact ⟨by simp, h.symm⟩

/-! Generic list helpers. -/

theorem getD_mem_of_lt {α : Type} (l : List α) (i : Nat) (d : α)
    (h : i < l.length) : l.getD i d ∈ l := by
  induction l generalizing i with
  | nil => simp at h
  | cons a rest ih =>
    cases i with
    | zero => simp
    | succ i =>
      simp only [List.getD_cons_succ]
      exact List.mem_cons_of_mem _ (ih i (by simpa using h))

theorem filter_uid_getD (uid : Field) (rows : List Row) (i : Nat)
    (hdup : hasDup (tableIds uid rows) = false) (hi : i < rows.length) :
    rows.filter
      (fun d => (Row.find d uid).getD Val.null == (tableIds uid rows).getD i Val.null)
      = [rows.getD i []] := by
  induction rows generalizing i with
  | nil => simp at hi
  | cons d rest ih =>
    have hdup' : ((tableIds uid rest).contains ((Row.find d uid).getD Val.null)
        || hasDup (tableIds uid rest)) = false := by
      simpa [tableIds, hasDup] using hdup
    have hc : (tableIds uid rest).contains ((Row.find d uid).getD Val.null) = false :=
      (Bool.or_eq_false_iff.mp hdup').1
    have hd2 : hasDup (tableIds uid rest) = false :=
      (Bool.or_eq_false_iff.mp hdup').2
    cases i with
    | zero =>
      simp only [tableIds, List.map_cons, List.getD_cons_zero, List.getD_cons_zero]
      rw [List.filter_cons_of_pos (by simp)]
      have : rest.filter
          (fun x => (Row.find x uid).getD Val.null == (Row.find d uid).getD Val.null) = [] := by
        rw [List.filter_eq_nil_iff]
        intro x hx hb
        have hx2 : ((Row.find x uid).getD Val.null) = ((Row.find d uid).getD Val.null) := by
          simpa using hb
        have : ((Row.find d uid).getD Val.null) ∈ tableIds uid rest := by
          rw [← hx2]
          exact List.mem_map.mpr ⟨x, hx, rfl⟩
        rw [List.contains_eq_any_beq] at hc
        have := List.any_eq_false.mp hc _ this
        simp at this
      rw [this]
    | succ i =>
      have hi' : i < rest.length := by simpa using hi
      have hidx : (tableIds uid (d :: rest)).getD (i + 1) Val.null
          = (tableIds uid rest).getD i Val.null := by
        simp [tableIds]
      rw [hidx]
      have hhead : ((Row.find d uid).getD Val.null == (tableIds uid rest).getD i Val.null) = false := by
        have hmem : (tableIds uid rest).getD i Val.null ∈ tableIds uid rest := by
          apply getD_mem_of_lt
          simpa [tableIds] using hi'
        cases hb : ((Row.find d uid).getD Val.null == (tableIds uid rest).getD i Val.null) with
        | false => rfl
        | true =>
          exfalso
          have heq : (Row.find d uid).getD Val.null = (tableIds uid rest).getD i Val.null := by
            simpa using hb
          rw [List.contains_eq_any_beq] at hc
          have := List.any_eq_false.mp hc _ (heq ▸ hmem)
          simp at this
      have hfc : List.filter
          (fun x => (Row.find x uid).getD Val.null == (tableIds uid rest).getD i Val.null)
          (d :: rest)
          = List.filter
          (fun x => (Row.find x uid).getD Val.null == (tableIds uid rest).getD i Val.null)
          rest := by
        simp only [List.filter_cons, hhead, Bool.false_eq_true, if_false]
      rw [hfc, ih i hd2 hi']
      simp

/-- Everything a successful `insert` call determines about its outcome,
gathered once so each property below can read off the pieces it needs. -/
structure InsertInv (s : DbState) (data : List Row) (gen : Nat → String)
    (r : InsertOk) : Prop where
  phase_eq : insertPhaseIds s.unique_id_field gen data
    = Except.ok (r.callerRows, r.unique_ids)
  caller_ne : r.callerRows ≠ []
  caller_len : r.callerRows.length = data.length
  caller_nonmissing : ∀ d ∈ r.callerRows, missingId s.unique_id_field d = false
  ids_eq : r.unique_ids = tableIds s.unique_id_field r.callerRows
  fit : rowsFitSchema s.table_sql_schema r.callerRows = true
  nodup : hasDup r.unique_ids = false
  fresh : (r.unique_ids.any
    (fun v => (tableIds s.unique_id_field s.sqlTable).contains v)) = false
  table_eq : r.state.sqlTable
    = s.sqlTable ++ r.callerRows.map (completeRow s.table_sql_schema)
  regen_eq : r.fields_generated
    = !(keysEqSet (Schema.keys s.table_sql_schema) (Row.keys r.callerRows.headI))
  final_eq : r.finalData =
    if r.fields_generated then r.callerRows.map (completeRow s.table_sql_schema)
    else r.callerRows
  final_nonmissing : ∀ d ∈ r.finalData, missingId s.unique_id_field d = false
  final_ids : tableIds s.unique_id_field r.finalData = r.unique_ids
  name_eq : r.state.table_name = s.table_name
  schema_eq : r.state.table_sql_schema = s.table_sql_schema
  uid_eq : r.state.unique_id_field = s.unique_id_field
  sem_eq : r.state.semantic_search_field = s.semantic_search_field
  vec_eq : r.state.vecInserts = s.vecInserts ++
    [⟨r.finalData.map (fun d => (Row.find d s.semantic_search_field).getD Val.null),
      r.finalData.map (fun d => Row.erase d s.semantic_search_field),
      some r.unique_ids⟩]

/-- Inversion of a successful `insert` on a well-formed binding. -/
theorem insert_ok_inv (s : DbState) (data : List Row) (ck : Bool)
    (gen : Nat → String) (r : InsertOk) (hwb : wellBound s)
    (h : insert s data ck gen = Except.ok r) : InsertInv s data gen r := by
  unfold insert at h
  split at h
  · exact Except.noConfusion h
  · split at h
    · exact Except.noConfusion h
    · rename_i p rows ids hp
      split at h
      · exact Except.noConfusion h
      · rename_i newTable hins
        split at h
        · exact Except.noConfusion h
        · rename_i regen hfg
          split at h
          · exact Except.noConfusion h
          · rename_i vp hvp
            simp only [Except.ok.injEq] at h
            subst h
            obtain ⟨hlen, hnm, hids, hmiss, hnomiss, hgetD⟩ :=
              insertPhaseIds_ok s.unique_id_field gen data rows ids hp
            obtain ⟨hfit, hcol, hdup, htab⟩ :=
              insert_data_ok s.table_sql_schema s.unique_id_field s.sqlTable rows
                newTable hins
            obtain ⟨hrne, hregen⟩ :=
              fields_were_generated_ok s.table_sql_schema rows regen hfg
            have hcompids : tableIds s.unique_id_field
                (rows.map (completeRow s.table_sql_schema))
                = tableIds s.unique_id_field rows :=
              tableIds_map_completeRow s.table_sql_schema s.unique_id_field rows
                hwb.1 hnm
            have hids2 : ids = tableIds s.unique_id_field
                (rows.map (completeRow s.table_sql_schema)) := by
              rw [hcompids]; exact hids
            have hfinal : (if regen then
                  rereadRows s.unique_id_field newTable ids else rows)
                = if regen then rows.map (completeRow s.table_sql_schema)
                  else rows := by
              cases regen with
              | false => rfl
              | true =>
                simp only [if_true]
                rw [htab]
                exact rereadRows_append_new s.unique_id_field s.sqlTable
                  (rows.map (completeRow s.table_sql_schema)) ids hids2
                  (by rw [hids2, hcompids, ← hids]; exact (hids2 ▸ hcol))
            have hfinal_nm : ∀ d ∈ (if regen then
                rereadRows s.unique_id_field newTable ids else rows),
                missingId s.unique_id_field d = false := by
              rw [hfinal]
              cases regen with
              | false => exact hnm
              | true =>
                simp only [if_true]
                intro d hd
                obtain ⟨x, hx, hxd⟩ := List.mem_map.mp hd
                rw [← hxd]
                exact missingId_completeRow s.table_sql_schema s.unique_id_field x
                  hwb.1 (hnm x hx)
            have hfinal_ids : tableIds s.unique_id_field
                (if regen then rereadRows s.unique_id_field newTable ids else rows)
                = ids := by
              rw [hfinal]
              cases regen with
              | false => exact hids.symm
              | true => simp only [if_true]; rw [hcompids]; exact hids.symm
            obtain ⟨hvt, hvm, hvi⟩ :=
              vecPrep_ok s.unique_id_field s.semantic_search_field gen data.length
                (if regen then rereadRows s.unique_id_field newTable ids else rows)
                vp hfinal_nm hvp
            have hids_ne : ids ≠ [] := by
              rw [hids]
              cases hr0 : rows with
              | nil => exact absurd hr0 hrne
              | cons a l => simp [tableIds]
            have htexts_ne : vp.text_ids.isEmpty = false := by
              rw [hvi, hfinal_ids]
              cases hids0 : ids with
              | nil => exact absurd hids0 hids_ne
              | cons a l => rfl
            have hdup2 : hasDup ids = false := by rw [hids2]; exact hdup
            have hcol2 : (ids.any
                (fun v => (tableIds s.unique_id_field s.sqlTable).contains v))
                = false := by rw [hids2]; exact hcol
            refine ⟨hp, hrne, hlen, hnm, hids, hfit, hdup2, hcol2,
              htab, hregen, ?_, hfinal_nm, hfinal_ids, rfl, rfl, rfl, rfl, ?_⟩
            · exact hfinal
            · simp only [htexts_ne, Bool.false_eq_true, if_false]
              rw [hvt, hvm, hvi, hfinal_ids]

/-! Error catalogues of the phases, for the no-validation result. -/

theorem collectIds_error (uid : Field) (l : List Row) (e : Err)
    (h : collectIds uid l = Except.error e) : e = Err.keyError := by
  induction l generalizing e with
  | nil => exact Except.noConfusion h
  | cons d rest ih =>
    simp only [collectIds] at h
    cases hf : Row.find d uid with
    | none =>
      rw [hf] at h
      simp only [Except.error.injEq] at h
      exact h.symm
    | some v =>
      rw [hf] at h
      cases hr : collectIds uid rest with
      | error e2 =>
        rw [hr] at h
        simp only [Except.map, Except.error.injEq] at h
        rw [← h]
        exact ih e2 hr
      | ok vs =>
        rw [hr] at h
        simp only [Except.map] at h
        exact Except.noConfusion h

theorem insertPhaseIds_error (uid : Field) (gen : Nat → String)
    (data : List Row) (e : Err)
    (h : insertPhaseIds uid gen data = Except.error e) : e = Err.keyError := by
  unfold insertPhaseIds at h
  by_cases hm : data.any (missingId uid) = true
  · rw [if_pos hm] at h; exact Except.noConfusion h
  · rw [if_neg hm] at h
    cases hc : collectIds uid data with
    | error e2 =>
      rw [hc] at h
      simp only [Except.map, Except.error.injEq] at h
      rw [← h]
      exact collectIds_error uid data e2 hc
    | ok vs =>
      rw [hc] at h
      simp only [Except.map] at h
      exact Except.noConfusion h

theorem insert_data_error (schema : Schema) (uid : Field) (table data : List Row)
    (e : Err) (h : insert_data schema uid table data = Except.error e) :
    e = Err.schemaError ∨ e = Err.constraintError := by
  unfold insert_data at h
  cases hrf : rowsFitSchema schema data with
  | false =>
    rw [hrf] at h
    simp only [Bool.not_false, if_true, Except.error.injEq] at h
    exact Or.inl h.symm
  | true =>
    rw [hrf] at h
    simp only [Bool.not_true, Bool.false_eq_true, if_false] at h
    split at h
    · simp only [Except.error.injEq] at h
      exact Or.inr h.symm
    · exact Except.noConfusion h

theorem fields_were_generated_error (schema : Schema) (rows : List Row) (e : Err)
    (h : fields_were_generated schema rows = Except.error e) :
    e = Err.indexError := by
  cases rows with
  | nil =>
    simp only [fields_were_generated, Except.error.injEq] at h
    exact h.symm
  | cons d rest => exact Except.noConfusion h

theorem vecPrep_error (uid sem : Field) (gen : Nat → String) (k : Nat)
    (rows : List Row) (e : Err)
    (h : vecPrep uid sem gen k rows = Except.error e) : e = Err.keyError := by
  induction rows generalizing k e with
  | nil => exact Except.noConfusion h
  | cons d rest ih =>
    simp only [vecPrep] at h
    cases hs : Row.find d sem with
    | none =>
      rw [hs] at h
      simp only [Except.error.injEq] at h
      exact h.symm
    | some sv =>
      rw [hs] at h
      cases hr : vecPrep uid sem gen (k + 1) rest with
      | error e2 =>
        rw [hr] at h
        simp only [Except.error.injEq] at h
        rw [← h]
        exact ih (k + 1) e2 hr
      | ok vp => rw [hr] at h; exact Except.noConfusion h

/-- With `check_validity` off, no run of `insert` raises the validation
error: the only error sources left are the key/index errors of the method
body and the relational adapter's schema/constraint failures. -/
theorem insert_unchecked_no_validation (s : DbState) (data : List Row)
    (gen : Nat → String) (e : Err) (s2 : DbState)
    (h : insert s data false gen = Except.error (e, s2)) :
    e ≠ Err.validationError := by
  unfold insert at h
  simp only [Bool.false_and, Bool.false_eq_true, if_false] at h
  split at h
  · rename_i e2 hp
    simp only [Except.error.injEq, Prod.mk.injEq] at h
    intro hc
    exact Err.noConfusion
      ((hc.symm.trans h.1.symm).trans (insertPhaseIds_error _ _ _ _ hp))
  · split at h
    · rename_i e2 hins
      simp only [Except.error.injEq, Prod.mk.injEq] at h
      intro hc
      rcases insert_data_error _ _ _ _ _ hins with h2 | h2 <;>
        exact Err.noConfusion ((hc.symm.trans h.1.symm).trans h2)
    · split at h
      · rename_i e2 hfg
        simp only [Except.error.injEq, Prod.mk.injEq] at h
        intro hc
        exact Err.noConfusion
          ((hc.symm.trans h.1.symm).trans (fields_were_generated_error _ _ _ hfg))
      · split at h
        · rename_i e2 hvp
          simp only [Except.error.injEq, Prod.mk.injEq] at h
          intro hc
          exact Err.noConfusion
            ((hc.symm.trans h.1.symm).trans (vecPrep_error _ _ _ _ _ _ hvp))
        · exact Except.noConfusion h

/-! The claims. -/

/-- C6: with validation requested, a row list in which some row carries a
key absent from the bound schema makes `insert` fail with the validation
error, and the error state is exactly the pre-call state: neither the
relational table nor the vector trace has changed. -/
theorem C6_validation_preflight (s : DbState) (data : List Row)
    (gen : Nat → String)
    (hbad : data.any (fun d => !(validRow s.table_sql_schema d)) = true) :
    insert s data true gen = Except.error (Err.validationError, s) := by
  unfold insert
  rw [Bool.true_and, hbad]
  rfl

/-- Row list whose single row carries the key "bogus", absent from
`exSchema`. -/
def C6data : List Row := [[("id", Val.str "a"), ("bogus", Val.str "b")]]

/-- Witness for C6 at a concrete input. -/
theorem C6_validation_preflight_witness :
    (C6data.any (fun d => !(validRow exState.table_sql_schema d)) = true) ∧
    insert exState C6data true exGen = Except.error (Err.validationError, exState) :=
  ⟨by decide, C6_validation_preflight exState C6data exGen (by decide)⟩

/-- C10: `insert` with an empty row list always raises the index error —
`fields_were_generated` reads `data[0].keys()` unconditionally — after the
(empty, no-op) relational bulk write, instead of returning an empty identity
sequence. -/
theorem C10_empty_insert (s : DbState) (ck : Bool) (gen : Nat → String) :
    insert s [] ck gen = Except.error (Err.indexError, s) := by
  unfold insert insertPhaseIds insert_data fields_were_generated
  simp [collectIds, Except.map, rowsFitSchema, tableIds, hasDup]

/-- C2 counterexample: a bound state with one stored row and a predicate
admitting no identities; the claim says the vector store is never queried,
but `hybrid_query` still issues the vector query (`some` call, not `none`),
with an empty `$in` list. -/
def C2state : DbState :=
  { exState with sqlTable :=
      [[("id", Val.str "r1"), ("text", Val.str "hello"), ("tag", Val.str "x")]] }

theorem C2_counterexample :
    hybrid_query C2state "q" 3
        (fun d => Row.find d "tag" == some (Val.str "nope")) ≠ none ∧
    hybrid_query C2state "q" 3
        (fun d => Row.find d "tag" == some (Val.str "nope"))
      = some ⟨"q", 3, []⟩ := by
  constructor
  · intro hc
    exact Option.noConfusion hc
  · rfl

/-- C2 amended: when the relational predicate admits no identities,
`hybrid_query` does not short-circuit: it still invokes the vector store's
query, passing an empty `$in` identity filter, and its result is whatever
the adapter returns for that call. -/
theorem C2_always_queries_vector (s : DbState) (qt : String) (k : Nat)
    (pred : Row → Bool) (h : admissible_ids s pred = []) :
    hybrid_query s qt k pred = some ⟨qt, k, []⟩ := by
  unfold hybrid_query
  rw [h]

/-- Witness for the amended C2 at a concrete input. -/
theorem C2_always_queries_vector_witness :
    admissible_ids C2state (fun d => Row.find d "tag" == some (Val.str "nope")) = [] ∧
    hybrid_query C2state "q" 3 (fun d => Row.find d "tag" == some (Val.str "nope"))
      = some ⟨"q", 3, []⟩ :=
  ⟨rfl, C2_always_queries_vector C2state "q" 3
    (fun d => Row.find d "tag" == some (Val.str "nope")) rfl⟩

/-- C8: `get` with a list of identities hands the relational engine the text
`SELECT * FROM documents WHERE id in ?` carrying one `?` placeholder but one
bind parameter per identity (two here), so the call errors instead of
returning the matching rows; the scalar path, by contrast, works as the
claim describes. -/
theorem C8_list_get_fails :
    get exState (GetArg.many [Val.str "a", Val.str "b"])
      = Except.error Err.sqlBindError ∧
    (get_sql exState (GetArg.many [Val.str "a", Val.str "b"])).1
      = "SELECT * FROM documents WHERE id in ?" ∧
    countPlaceholders (get_sql exState (GetArg.many [Val.str "a", Val.str "b"])).1 = 1 ∧
    (get_sql exState (GetArg.many [Val.str "a", Val.str "b"])).2.length = 2 ∧
    get exState (GetArg.scalar (Val.str "a")) = Except.ok [] := by
  refine ⟨rfl, rfl, ?_, rfl, rfl⟩
  decide

/-- Row list mixing a supplied identity with a row that lacks one. -/
def C1data : List Row :=
  [[("id", Val.str "caller"), ("text", Val.str "a")], [("text", Val.str "b")]]

/-- C1 counterexample: the first row supplied the identity "caller"; because
the second row lacked one, `insert` regenerated identities for every row —
after the call the first caller dict holds the generated "uuid-0", not the
supplied value, contradicting the claim that supplied identities are kept
unchanged. -/
theorem C1_counterexample :
    (insert exState C1data false exGen).map
        (fun r => (Row.find r.callerRows.headI "id", r.unique_ids))
      = Except.ok (some (Val.str "uuid-0"),
          [Val.str "uuid-0", Val.str "uuid-1"]) ∧
    Val.str "uuid-0" ≠ Val.str "caller" := by
  constructor
  · rfl
  · decide

/-- C1 amended: if every supplied row carries a non-null identity, each row
keeps its value and those values are returned in input order; if any row
lacks the identity field or has it null, every row — supplied identities
included — is assigned a freshly generated identity; in both cases the
returned sequence is the final identity of each caller row in input
order. -/
theorem C1_identity_rule (s : DbState) (data : List Row) (ck : Bool)
    (gen : Nat → String) (r : InsertOk) (hwb : wellBound s)
    (h : insert s data ck gen = Except.ok r) :
    (data.any (missingId s.unique_id_field) = false →
      r.callerRows = data ∧
      r.unique_ids = tableIds s.unique_id_field data) ∧
    (data.any (missingId s.unique_id_field) = true →
      r.callerRows = assignFrom s.unique_id_field gen 0 data ∧
      r.unique_ids = genIds gen 0 data.length) ∧
    r.unique_ids = tableIds s.unique_id_field r.callerRows := by
  have inv := insert_ok_inv s data ck gen r hwb h
  obtain ⟨hlen, hnm, hids, hmiss, hnomiss, hgetD⟩ :=
    insertPhaseIds_ok s.unique_id_field gen data r.callerRows r.unique_ids
      inv.phase_eq
  refine ⟨?_, hmiss, hids⟩
  intro hc
  have hrows := hnomiss hc
  exact ⟨hrows, by rw [hids, hrows]⟩

/-- Row list in which every row supplies a (distinct, non-null) identity. -/
def C1wdata : List Row :=
  [[("id", Val.str "k1"), ("text", Val.str "a")],
   [("id", Val.str "k2"), ("text", Val.str "b")]]

/-- Witness for the amended C1 at a concrete input: insert succeeds and the
amended rule is obtained by direct application. -/
theorem C1_identity_rule_witness :
    wellBound exState ∧
    (∃ r, insert exState C1wdata false exGen = Except.ok r) ∧
    (∀ r, insert exState C1wdata false exGen = Except.ok r →
      (C1wdata.any (missingId exState.unique_id_field) = false →
        r.callerRows = C1wdata ∧
        r.unique_ids = tableIds exState.unique_id_field C1wdata) ∧
      (C1wdata.any (missingId exState.unique_id_field) = true →
        r.callerRows = assignFrom exState.unique_id_field exGen 0 C1wdata ∧
        r.unique_ids = genIds exGen 0 C1wdata.length) ∧
      r.unique_ids = tableIds exState.unique_id_field r.callerRows) :=
  ⟨by decide, ⟨_, rfl⟩,
    fun r h => C1_identity_rule exState C1wdata false exGen r (by decide) h⟩

/-- C9: when some supplied row lacked an identity, a successful `insert`
has mutated the caller's row dicts in place: afterwards the caller's list is
exactly the original with a generated identity written into every dict, and
each dict's identity field holds the identity generated for its position
(which is also what the call returned there). -/
theorem C9_inplace_mutation (s : DbState) (data : List Row) (ck : Bool)
    (gen : Nat → String) (r : InsertOk) (hwb : wellBound s)
    (hmiss : data.any (missingId s.unique_id_field) = true)
    (h : insert s data ck gen = Except.ok r) :
    r.callerRows = assignFrom s.unique_id_field gen 0 data ∧
    r.unique_ids = genIds gen 0 data.length ∧
    (∀ i, i < data.length →
      Row.find (r.callerRows.getD i []) s.unique_id_field
        = some (Val.str (gen i))) := by
  have inv := insert_ok_inv s data ck gen r hwb h
  obtain ⟨hlen, hnm, hids, hm, hno, hgetD⟩ :=
    insertPhaseIds_ok s.unique_id_field gen data r.callerRows r.unique_ids
      inv.phase_eq
  obtain ⟨hrows, hgen⟩ := hm hmiss
  refine ⟨hrows, hgen, ?_⟩
  intro i hi
  rw [hrows, assignFrom_getD, if_pos hi, Nat.zero_add, find_set_self]

/-- Row list whose rows all lack the identity field. -/
def C9data : List Row :=
  [[("text", Val.str "a"), ("tag", Val.str "t")], [("text", Val.str "b")]]

/-- Witness for C9 at a concrete input. -/
theorem C9_inplace_mutation_witness :
    wellBound exState ∧
    C9data.any (missingId exState.unique_id_field) = true ∧
    (∃ r, insert exState C9data false exGen = Except.ok r) ∧
    (∀ r, insert exState C9data false exGen = Except.ok r →
      r.callerRows = assignFrom exState.unique_id_field exGen 0 C9data ∧
      r.unique_ids = genIds exGen 0 C9data.length ∧
      (∀ i, i < C9data.length →
        Row.find (r.callerRows.getD i []) exState.unique_id_field
          = some (Val.str (exGen i)))) :=
  ⟨by decide, by decide, ⟨_, rfl⟩,
    fun r h =>
      C9_inplace_mutation exState C9data false exGen r (by decide) (by decide) h⟩

/-- C3: on any successful `insert`, exactly one batch goes to the vector
store; the relational table gains the completed caller rows, whose identity
column values are the returned identities; the vector batch stores, row for
row over the final data, the semantic-field value as the text and the row
minus the semantic field as the metadata (the identity still inside it), and
its external ids are the same returned identities — so each vector entry is
keyed by the identity of its relational record. -/
theorem C3_dual_store_consistency (s : DbState) (data : List Row) (ck : Bool)
    (gen : Nat → String) (r : InsertOk) (hwb : wellBound s)
    (hne : s.semantic_search_field ≠ s.unique_id_field)
    (h : insert s data ck gen = Except.ok r) :
    ∃ call : BatchInsert,
      r.state.vecInserts = s.vecInserts ++ [call] ∧
      r.state.sqlTable
        = s.sqlTable ++ r.callerRows.map (completeRow s.table_sql_schema) ∧
      tableIds s.unique_id_field
          (r.callerRows.map (completeRow s.table_sql_schema)) = r.unique_ids ∧
      call.text_ids = some r.unique_ids ∧
      call.texts = r.finalData.map
        (fun d => (Row.find d s.semantic_search_field).getD Val.null) ∧
      call.metadatas = r.finalData.map
        (fun d => Row.erase d s.semantic_search_field) ∧
      tableIds s.unique_id_field r.finalData = r.unique_ids ∧
      call.metadatas.map
          (fun d => (Row.find d s.unique_id_field).getD Val.null)
        = r.unique_ids := by
  have inv := insert_ok_inv s data ck gen r hwb h
  refine ⟨_, inv.vec_eq, inv.table_eq, ?_, rfl, rfl, rfl, inv.final_ids, ?_⟩
  · rw [tableIds_map_completeRow s.table_sql_schema s.unique_id_field
      r.callerRows hwb.1 inv.caller_nonmissing]
    exact inv.ids_eq.symm
  · rw [List.map_map]
    have hpt : ∀ d ∈ r.finalData,
        ((fun d => (Row.find d s.unique_id_field).getD Val.null) ∘
          (fun d => Row.erase d s.semantic_search_field)) d
        = (Row.find d s.unique_id_field).getD Val.null := by
      intro d _
      simp only [Function.comp]
      rw [find_erase_ne d s.semantic_search_field s.unique_id_field
        (Ne.symm hne)]
    rw [List.map_congr_left hpt]
    exact inv.final_ids

/-- Single valid row for exercising the dual-store property. -/
def C3data : List Row := [[("text", Val.str "hello"), ("tag", Val.str "x")]]

/-- Witness for C3 at a concrete input. -/
theorem C3_dual_store_consistency_witness :
    wellBound exState ∧
    exState.semantic_search_field ≠ exState.unique_id_field ∧
    (∃ r, insert exState C3data false exGen = Except.ok r) ∧
    (∀ r, insert exState C3data false exGen = Except.ok r →
      ∃ call : BatchInsert,
        r.state.vecInserts = exState.vecInserts ++ [call] ∧
        r.state.sqlTable
          = exState.sqlTable
            ++ r.callerRows.map (completeRow exState.table_sql_schema) ∧
        tableIds exState.unique_id_field
            (r.callerRows.map (completeRow exState.table_sql_schema))
          = r.unique_ids ∧
        call.text_ids = some r.unique_ids ∧
        call.texts = r.finalData.map
          (fun d => (Row.find d exState.semantic_search_field).getD Val.null) ∧
        call.metadatas = r.finalData.map
          (fun d => Row.erase d exState.semantic_search_field) ∧
        tableIds exState.unique_id_field r.finalData = r.unique_ids ∧
        call.metadatas.map
            (fun d => (Row.find d exState.unique_id_field).getD Val.null)
          = r.unique_ids) :=
  ⟨by decide, by decide, ⟨_, rfl⟩,
    fun r h => C3_dual_store_consistency exState C3data false exGen r
      (by decide) (by decide) h⟩

/-- Single row supplying every schema column except the identity. -/
def C4data : List Row := [[("text", Val.str "a"), ("tag", Val.str "t")]]

/-- C4 counterexample: the supplied row's column set {text, tag} is a strict
subset of the schema's {id, text, tag}, yet no re-read happens
(`fields_generated` is false): the generated identity was written into the
caller's dict before the key-set comparison, which therefore sees a key set
set-equal to the schema's. -/
theorem C4_counterexample :
    strictSubset (Row.keys C4data.headI) (Schema.keys exSchema) = true ∧
    (insert exState C4data false exGen).map (fun r => r.fields_generated)
      = Except.ok false := by
  constructor
  · decide
  · rfl

/-- C4 amended: a successful `insert` re-reads the rows from the relational
store if and only if the first row's key set, after identity assignment,
differs as a set from the schema's key set (Python dict-view equality of
`table_sql_schema.keys()` and `data[0].keys()`); when the re-read happens
the vector payload is built from the completed stored rows, otherwise from
the caller's rows as assigned. -/
theorem C4_reread_condition (s : DbState) (data : List Row) (ck : Bool)
    (gen : Nat → String) (r : InsertOk) (hwb : wellBound s)
    (h : insert s data ck gen = Except.ok r) :
    r.fields_generated
      = !(keysEqSet (Schema.keys s.table_sql_schema)
          (Row.keys r.callerRows.headI)) ∧
    r.finalData = (if r.fields_generated
      then r.callerRows.map (completeRow s.table_sql_schema)
      else r.callerRows) := by
  have inv := insert_ok_inv s data ck gen r hwb h
  exact ⟨inv.regen_eq, inv.final_eq⟩

/-- Witness for the amended C4 at a concrete input. -/
theorem C4_reread_condition_witness :
    wellBound exState ∧
    (∃ r, insert exState C4data false exGen = Except.ok r) ∧
    (∀ r, insert exState C4data false exGen = Except.ok r →
      r.fields_generated
        = !(keysEqSet (Schema.keys exState.table_sql_schema)
            (Row.keys r.callerRows.headI)) ∧
      r.finalData = (if r.fields_generated
        then r.callerRows.map (completeRow exState.table_sql_schema)
        else r.callerRows)) :=
  ⟨by decide, ⟨_, rfl⟩,
    fun r h => C4_reread_condition exState C4data false exGen r (by decide) h⟩

/-- Indexing a mapped list below its length reaches the mapped element,
whatever defaults are supplied on either side. -/
theorem getD_map_lt {α β : Type} (f : α → β) (l : List α) (i : Nat)
    (d : β) (d' : α) (hi : i < l.length) :
    (l.map f).getD i d = f (l.getD i d') := by
  induction l generalizing i with
  | nil => simp at hi
  | cons a rest ih =>
    cases i with
    | zero => simp
    | succ i => simpa using ih i (by simpa using hi)

/-- Metadata that itself sets the semantic field ("text"). -/
def C7metadata : Row := [("tag", Val.str "x"), ("text", Val.str "OLD")]

/-- A concrete stand-in for the external sentence splitter. -/
def C7split : String → Nat → List String := fun _ _ => ["c1. c2.", "c3."]

/-- C7 counterexample: the metadata sets the semantic field, which the claim
says makes `insert_text_in_chunks` raise the validation error; instead the
call succeeds, and the vector store receives the chunk texts — the
metadata's own semantic value "OLD" was silently overwritten. -/
theorem C7_counterexample :
    (∃ r, insert_text_in_chunks exState C7split "c1. c2. c3." C7metadata 2
        false exGen = Except.ok r) ∧
    (insert_text_in_chunks exState C7split "c1. c2. c3." C7metadata 2
        false exGen).map (fun r => r.state.vecInserts.map BatchInsert.texts)
      = Except.ok [[Val.str "c1. c2.", Val.str "c3."]] :=
  ⟨⟨_, rfl⟩, rfl⟩

/-- C7 amended: `insert_text_in_chunks` performs no validation of the
metadata: each chunk row is a copy of the metadata with its semantic field
silently overwritten by the chunk's text, every other metadata entry — an
identity-field entry included — is copied through unchanged, and with
validation off the call never raises the validation error on any account. -/
theorem C7_no_metadata_validation (s : DbState)
    (split : String → Nat → List String) (text : String) (metadata : Row)
    (n : Nat) (gen : Nat → String) (v : Val)
    (_hmeta : Row.find metadata s.semantic_search_field = some v) :
    (∀ i, i < (split text n).length →
      Row.find
        ((chunk_text_for_insert s.semantic_search_field split text metadata n).getD i [])
        s.semantic_search_field
        = some (Val.str ((split text n).getD i ""))) ∧
    (∀ k, k ≠ s.semantic_search_field → ∀ i, i < (split text n).length →
      Row.find
        ((chunk_text_for_insert s.semantic_search_field split text metadata n).getD i [])
        k = Row.find metadata k) ∧
    (∀ s2, insert_text_in_chunks s split text metadata n false gen
      ≠ Except.error (Err.validationError, s2)) := by
  refine ⟨?_, ?_, ?_⟩
  · intro i hi
    unfold chunk_text_for_insert
    rw [getD_map_lt (fun c => Row.set metadata s.semantic_search_field (Val.str c))
      (split text n) i [] "" hi]
    exact find_set_self metadata s.semantic_search_field
      (Val.str ((split text n).getD i ""))
  · intro k hk i hi
    unfold chunk_text_for_insert
    rw [getD_map_lt (fun c => Row.set metadata s.semantic_search_field (Val.str c))
      (split text n) i [] "" hi]
    exact find_set_ne metadata s.semantic_search_field k
      (Val.str ((split text n).getD i "")) hk
  · intro s2 hc
    exact insert_unchecked_no_validation s _ gen Err.validationError s2 hc rfl

/-- Witness for the amended C7 at a concrete input. -/
theorem C7_no_metadata_validation_witness :
    Row.find C7metadata exState.semantic_search_field = some (Val.str "OLD") ∧
    ((∀ i, i < (C7split "c1. c2. c3." 2).length →
      Row.find
        ((chunk_text_for_insert exState.semantic_search_field C7split
          "c1. c2. c3." C7metadata 2).getD i [])
        exState.semantic_search_field
        = some (Val.str ((C7split "c1. c2. c3." 2).getD i ""))) ∧
    (∀ k, k ≠ exState.semantic_search_field →
      ∀ i, i < (C7split "c1. c2. c3." 2).length →
      Row.find
        ((chunk_text_for_insert exState.semantic_search_field C7split
          "c1. c2. c3." C7metadata 2).getD i [])
        k = Row.find C7metadata k) ∧
    (∀ s2, insert_text_in_chunks exState C7split "c1. c2. c3." C7metadata 2
      false exGen ≠ Except.error (Err.validationError, s2))) :=
  ⟨rfl, C7_no_metadata_validation exState C7split "c1. c2. c3." C7metadata 2
    exGen (Val.str "OLD") rfl⟩

/-- Row list mixing a supplied identity with a row that lacks one, for the
round-trip counterexample. -/
def C5data : List Row :=
  [[("id", Val.str "caller"), ("text", Val.str "a")], [("text", Val.str "b")]]

/-- C5 counterexample: the first row supplied identity "caller", another row
of the same call lacked one, so the row was stored under the regenerated
"uuid-0": `get` at the supplied identity returns no row, and `get` at the
identity `insert` returned yields a row whose identity field is "uuid-0" —
the returned row does not equal the supplied one on the schema-declared
identity field. -/
theorem C5_counterexample :
    (insert exState C5data false exGen).map (fun r =>
        (get r.state (GetArg.scalar (Val.str "caller")),
         (get r.state (GetArg.scalar (r.unique_ids.getD 0 Val.null))).map
           (fun rows => Row.find (rows.getD 0 []) "id")))
      = Except.ok (Except.ok [], Except.ok (some (Val.str "uuid-0"))) ∧
    Val.str "uuid-0" ≠ Val.str "caller" := ⟨rfl, by decide⟩

/-- C5 amended: after a successful `insert`, `get` at the i-th returned
identity returns exactly the completed stored version of the i-th caller
row; that row agrees with the i-th supplied row on every supplied field
other than the identity field (server-defaulted columns are populated with
server-side values), and its identity field holds the returned identity —
which coincides with a supplied one only when no row of the call lacked an
identity. -/
theorem C5_round_trip (s : DbState) (data : List Row) (ck : Bool)
    (gen : Nat → String) (r : InsertOk) (i : Nat) (hwb : wellBound s)
    (h : insert s data ck gen = Except.ok r) (hi : i < data.length) :
    get r.state (GetArg.scalar (r.unique_ids.getD i Val.null))
      = Except.ok [completeRow s.table_sql_schema (r.callerRows.getD i [])] ∧
    (∀ k v, k ≠ s.unique_id_field →
      Row.find (data.getD i []) k = some v →
      Row.find (completeRow s.table_sql_schema (r.callerRows.getD i [])) k
        = some v) ∧
    Row.find (completeRow s.table_sql_schema (r.callerRows.getD i []))
        s.unique_id_field
      = some (r.unique_ids.getD i Val.null) := by
  have inv := insert_ok_inv s data ck gen r hwb h
  obtain ⟨hplen, hpnm, hpids, hpmiss, hpnomiss, hpgetD⟩ :=
    insertPhaseIds_ok s.unique_id_field gen data r.callerRows r.unique_ids
      inv.phase_eq
  have hleni : i < r.callerRows.length := by rw [inv.caller_len]; exact hi
  obtain ⟨v, hv, hn⟩ :=
    (missingId_false_iff s.unique_id_field (r.callerRows.getD i [])).1
      (inv.caller_nonmissing _ (getD_mem_of_lt _ _ _ hleni))
  have hval : r.unique_ids.getD i Val.null
      = (Row.find (r.callerRows.getD i []) s.unique_id_field).getD Val.null := by
    rw [inv.ids_eq]
    exact getD_map_lt (fun d => (Row.find d s.unique_id_field).getD Val.null)
      r.callerRows i Val.null [] hleni
  have hid3 : Row.find (completeRow s.table_sql_schema (r.callerRows.getD i []))
      s.unique_id_field = some (r.unique_ids.getD i Val.null) := by
    rw [completeRow_find _ _ _ hwb.1, hv, hval, hv]
    rfl
  have hidmem : r.unique_ids.getD i Val.null ∈ r.unique_ids := by
    apply getD_mem_of_lt
    rw [inv.ids_eq]
    simpa [tableIds] using hleni
  have hold : s.sqlTable.filter
      (fun d => (Row.find d s.unique_id_field).getD Val.null
        == r.unique_ids.getD i Val.null) = [] := by
    rw [List.filter_eq_nil_iff]
    intro d hd hb
    have heq : (Row.find d s.unique_id_field).getD Val.null
        = r.unique_ids.getD i Val.null := by simpa using hb
    have hmem2 : r.unique_ids.getD i Val.null
        ∈ tableIds s.unique_id_field s.sqlTable := by
      rw [← heq]
      exact List.mem_map.mpr ⟨d, hd, rfl⟩
    have hfr := List.any_eq_false.mp inv.fresh _ hidmem
    apply hfr
    simpa using hmem2
  have hdupc : hasDup (tableIds s.unique_id_field
      (r.callerRows.map (completeRow s.table_sql_schema))) = false := by
    rw [tableIds_map_completeRow _ _ _ hwb.1 inv.caller_nonmissing,
      ← inv.ids_eq]
    exact inv.nodup
  have hlen2 : i < (r.callerRows.map (completeRow s.table_sql_schema)).length := by
    simpa using hleni
  have hfu := filter_uid_getD s.unique_id_field
    (r.callerRows.map (completeRow s.table_sql_schema)) i hdupc hlen2
  have hidx : (tableIds s.unique_id_field
      (r.callerRows.map (completeRow s.table_sql_schema))).getD i Val.null
      = r.unique_ids.getD i Val.null := by
    rw [tableIds_map_completeRow _ _ _ hwb.1 inv.caller_nonmissing, ← inv.ids_eq]
  rw [hidx] at hfu
  have hnewD : (r.callerRows.map (completeRow s.table_sql_schema)).getD i []
      = completeRow s.table_sql_schema (r.callerRows.getD i []) :=
    getD_map_lt (completeRow s.table_sql_schema) r.callerRows i [] [] hleni
  rw [hnewD] at hfu
  refine ⟨?_, ?_, hid3⟩
  · have hg : get r.state (GetArg.scalar (r.unique_ids.getD i Val.null))
        = Except.ok (r.state.sqlTable.filter
          (fun d => (Row.find d r.state.unique_id_field).getD Val.null
            == r.unique_ids.getD i Val.null)) := rfl
    rw [hg, inv.uid_eq, inv.table_eq, List.filter_append, hold, List.nil_append,
      hfu]
  · intro k v2 hk hfindk
    have h1 : Row.find (r.callerRows.getD i []) k = some v2 := by
      rw [hpgetD i k hk]
      exact hfindk
    have hmemrow := getD_mem_of_lt r.callerRows i [] hleni
    have hfit := List.all_eq_true.mp inv.fit _ hmemrow
    have hkk := find_mem_keys _ _ _ h1
    have hkschema : (Schema.keys s.table_sql_schema).contains k = true := by
      have hmemk : k ∈ Row.keys (r.callerRows.getD i []) := by simpa using hkk
      exact List.all_eq_true.mp hfit k hmemk
    rw [completeRow_find _ _ _ hkschema, h1]
    rfl

/-- Single valid row for witnessing the round trip. -/
def C5wdata : List Row := [[("text", Val.str "w"), ("tag", Val.str "y")]]

/-- Witness for the amended C5 at a concrete input. -/
theorem C5_round_trip_witness :
    wellBound exState ∧ 0 < C5wdata.length ∧
    (∃ r, insert exState C5wdata false exGen = Except.ok r) ∧
    (∀ r, insert exState C5wdata false exGen = Except.ok r →
      get r.state (GetArg.scalar (r.unique_ids.getD 0 Val.null))
        = Except.ok
            [completeRow exState.table_sql_schema (r.callerRows.getD 0 [])] ∧
      (∀ k v, k ≠ exState.unique_id_field →
        Row.find (C5wdata.getD 0 []) k = some v →
        Row.find (completeRow exState.table_sql_schema (r.callerRows.getD 0 []))
          k = some v) ∧
      Row.find (completeRow exState.table_sql_schema (r.callerRows.getD 0 []))
          exState.unique_id_field
        = some (r.unique_ids.getD 0 Val.null)) :=
  ⟨by decide, by decide, ⟨_, rfl⟩,
    fun r h =>
      C5_round_trip exState C5wdata false exGen r 0 (by decide) h (by decide)⟩

end SemanticSql
